import Mathlib

/-!
Verification of the kcp request-handler chain, discovery merger, workspace
admission, and front-proxy readiness loop.

The definitions below are shallow embeddings of the Go sources:
  * `pkg/server/handler.go` — the middleware chain (`WithClusterScope`,
    `WithWildcardListWatchGuard`, `WithInClusterServiceAccountRequestRewrite`,
    `WithWildcardIdentity`, `processResourceIdentity`) and the core-group
    discovery merger (`serveCoreV1Discovery`).
  * `cmd` test-server `startFrontProxy` — the readiness-probe loop.
  * the `clusterworkspace` admission plugin — whose implementation file is
    not part of the excerpt; its `Admit`/`Validate` are modelled from the
    spec and cross-checked against `admission_test.go`.

Strings manipulated by the handler chain are embedded as `List Char`
(Go strings are byte strings; all constants involved are ASCII, where
byte order and code-point order agree).  Pure data of the admission
plugin uses Lean `String`.
-/

namespace KcpServer

/-- Request state read and written by the handler chain: the decoded URL
path (`URL.Path`), the raw (percent-encoded) path (`URL.RawPath`), the
request URI (`RequestURI`), and the three headers the chain consumes. -/
structure HttpRequest where
  path : List Char
  rawPath : List Char
  requestURI : List Char
  clusterHeader : List Char
  shardedHeader : List Char
  authHeader : List Char
deriving DecidableEq, Repr

/-- Cluster attachment stored into the request context by `WithClusterScope`
(`request.Cluster` in the source; the `PartialMetadataRequest` flag is
independent of every property proved here and is omitted). -/
structure Cluster where
  name : List Char
  wildcard : Bool
deriving DecidableEq, Repr

/-- Character class `[a-z]` of the cluster-name regular expression. -/
def isLowerAlpha (c : Char) : Bool :=
  'a' ≤ c && c ≤ 'z'

/-- Character class `[a-z0-9]` of the cluster-name regular expression. -/
def isLowerAlnum (c : Char) : Bool :=
  isLowerAlpha c || ('0' ≤ c && c ≤ '9')

/-- Character class `[a-z0-9-]` of the cluster-name regular expression. -/
def isLabelChar (c : Char) : Bool :=
  isLowerAlnum c || c == '-'

/-- One colon-separated label of a cluster name, i.e. the regex fragment
`[a-z]([a-z0-9-]{0,61}[a-z0-9])?`: 1 to 63 characters, starting with a
lower-case letter, ending with a lower-case alphanumeric, with label
characters in between. -/
def validLabel (l : List Char) : Bool :=
  match l with
  | [] => false
  | [c] => isLowerAlpha c
  | c :: rest =>
    isLowerAlpha c && l.length ≤ 63 && rest.all isLabelChar &&
      (match rest.getLast? with
       | some d => isLowerAlnum d
       | none => false)

/-- Splits a character list at every occurrence of the separator `c`.
The result is always non-empty; separators are not kept. -/
def splitOnChar (c : Char) : List Char → List (List Char)
  | [] => [[]]
  | a :: rest =>
    match splitOnChar c rest with
    | r :: rs => if a == c then [] :: r :: rs else (a :: r) :: rs
    | [] => [[a]]

/-- Embedding of `reClusterName.MatchString`: the anchored regular
expression `^([a-z]([a-z0-9-]{0,61}[a-z0-9])?:)*[a-z]([a-z0-9-]{0,61}[a-z0-9])?$`
from `pkg/server/handler.go`, i.e. one or more valid labels joined by `:`. -/
def reClusterNameMatch (s : List Char) : Bool :=
  (splitOnChar ':' s).all validLabel

/-- Constant `logicalcluster.Wildcard`, the name `*`. -/
def wildcardName : List Char := ['*']

/-- Modelled from the spec: the implementation-defined local-admin cluster
(`genericcontrolplane.LocalAdminCluster`, not part of the excerpt).  Its
concrete value is irrelevant to every claim; the spec only says that the
empty cluster name maps to it. -/
def localAdminCluster : List Char := "system:admin".toList

/-- The literal path marker `/clusters/`. -/
def clustersMarker : List Char := "/clusters/".toList

/-- Outcome of `WithClusterScope`: either an error response written via
`responsewriters.ErrorNegotiated` (the inner handler is not invoked), or a
forward to the inner handler with the rewritten `URL.Path`, the rewritten
`URL.RawPath` and the cluster attachment placed into the context. -/
inductive ClusterScopeResult where
  | badRequest
  | internalError
  | forward (path rawPath : List Char) (cluster : Cluster)
deriving DecidableEq, Repr

/-- HTTP status code of a `ClusterScopeResult` error response
(`apierrors.NewBadRequest` serves 400, `apierrors.NewInternalError` 500);
`none` when the request is forwarded instead. -/
def ClusterScopeResult.statusCode : ClusterScopeResult → Option Nat
  | .badRequest => some 400
  | .internalError => some 500
  | .forward _ _ _ => none

/-- Embedding of the `RawPath`-shortening loop of `WithClusterScope`
(`for i := 0; i < 2 && len(req.URL.RawPath) > 1; i++`): in each of up to
`iters` rounds, stop if at most one character is left, fail
(`NewInternalError`) if the tail `RawPath[1:]` has no `/`, and otherwise
replace `RawPath` by `RawPath[slash:]` where `slash` is the index of the
first `/` within `RawPath[1:]`. -/
def shortenRawPath : Nat → List Char → Option (List Char)
  | 0, rp => some rp
  | n + 1, rp =>
    if rp.length ≤ 1 then some rp
    else
      match rp.tail.findIdx? (· == '/') with
      | none => none
      | some slash => shortenRawPath n (rp.drop slash)

/-- Resolution of a cluster name into a cluster attachment: the `switch` at
the end of `WithClusterScope`.  `*` becomes the wildcard cluster, the empty
name the local-admin cluster, and any other name must match
`reClusterName` (otherwise `NewBadRequest` is served). -/
def resolveCluster (clusterName : List Char) : Option Cluster :=
  if clusterName = wildcardName then some ⟨wildcardName, true⟩
  else if clusterName = [] then some ⟨localAdminCluster, false⟩
  else if reClusterNameMatch clusterName then some ⟨clusterName, false⟩
  else none

/-- Embedding of `WithClusterScope` (`pkg/server/handler.go`): if the path
starts with `/clusters/`, the first segment after the marker becomes the
cluster name and is stripped from `URL.Path`, and the raw path is run
through the two-round shortening loop; otherwise the cluster name is read
from the cluster header.  The resulting name is resolved by
`resolveCluster`; on failure a 400 is served, and a failing shortening
round serves a 500. -/
def withClusterScope (req : HttpRequest) : ClusterScopeResult :=
  if clustersMarker.isPrefixOf req.path then
    let p := req.path.drop clustersMarker.length
    match p.findIdx? (· == '/') with
    | none => .badRequest
    | some i =>
      match shortenRawPath 2 req.rawPath with
      | none => .internalError
      | some rp =>
        match resolveCluster (p.take i) with
        | none => .badRequest
        | some cl => .forward (p.drop i) rp cl
  else
    match resolveCluster req.clusterHeader with
    | none => .badRequest
    | some cl => .forward req.path req.rawPath cl

/-- Parsed request attributes (`request.RequestInfo` from the apiserver
library) as read by the wildcard middleware: whether the request addresses
a resource, and its verb, resource, API group and API version. -/
structure RequestInfo where
  isResourceRequest : Bool
  verb : List Char
  resource : List Char
  apiGroup : List Char
  apiVersion : List Char
deriving DecidableEq, Repr

/-- Rendering of `schema.GroupResource.String()`: `resource.group`, or just
`resource` when the group is empty. -/
def groupResourceString (group resource : List Char) : List Char :=
  if group = [] then resource else resource ++ '.' :: group

/-- Message of the status returned by `apierrors.NewMethodNotSupported`
(apimachinery): `<verb> is not supported on resources of type "<groupResource>"`. -/
def methodNotSupportedMessage (group resource verb : List Char) : List Char :=
  verb ++ " is not supported on resources of type \"".toList
    ++ groupResourceString group resource ++ ['"']

/-- The suffix `WithWildcardListWatchGuard` appends to the status message. -/
def wildcardGuardSuffix : List Char := " in the `*` logical cluster".toList

/-- Outcome of `WithWildcardListWatchGuard`: forward to the inner handler,
serve the 405 MethodNotSupported status, or serve a 500 because the
request info is missing from the context. -/
inductive GuardResult where
  | forward
  | methodNotSupported (code : Nat) (message : List Char)
  | internalError
deriving DecidableEq, Repr

/-- Embedding of `WithWildcardListWatchGuard` (`pkg/server/handler.go`):
when the context cluster is the wildcard cluster, a missing request info
is a 500; a resource request whose verb is neither `list` nor `watch` is
answered with the `NewMethodNotSupported` status (HTTP 405) whose message
gets the wildcard suffix appended; everything else is forwarded. -/
def withWildcardListWatchGuard (cluster : Option Cluster)
    (ri : Option RequestInfo) : GuardResult :=
  match cluster with
  | none => .forward
  | some cl =>
    if cl.wildcard then
      match ri with
      | none => .internalError
      | some info =>
        if info.isResourceRequest
            && !(info.verb == "list".toList || info.verb == "watch".toList) then
          .methodNotSupported 405
            (methodNotSupportedMessage info.apiGroup info.resource info.verb
              ++ wildcardGuardSuffix)
        else .forward
    else .forward

/-- Embedding of `strings.Replace(s, pat, rep, 1)`: replaces the first
occurrence of `pat` in `s` by `rep` (the empty pattern matches at the
start, and a pattern that never occurs leaves `s` unchanged). -/
def replaceFirst (pat rep : List Char) : List Char → List Char
  | [] => if pat.isPrefixOf ([] : List Char) then rep else []
  | c :: rest =>
    if pat.isPrefixOf (c :: rest) then rep ++ (c :: rest).drop pat.length
    else c :: replaceFirst pat rep rest

/-- Result of `processResourceIdentity` on the success path: the rewritten
`URL.Path` and `URL.RawPath` of the cloned request, the request info with
the identity stripped from its resource, and the identity placed in the
context (`none` when the request carried no identity suffix). -/
structure IdentityRewrite where
  path : List Char
  rawPath : List Char
  resource : List Char
  identity : Option (List Char)
deriving DecidableEq, Repr

/-- Embedding of `processResourceIdentity` (`pkg/server/handler.go`):
non-resource requests and resources without `:` pass through unchanged;
otherwise the resource is split at the first `:`, an empty identity is an
error (`none`), and on success the request is cloned with the full
`resource:identity` string replaced (first occurrence) by the bare
resource in both `URL.Path` and `URL.RawPath`. -/
def processResourceIdentity (req : HttpRequest) (ri : RequestInfo) :
    Option IdentityRewrite :=
  if !ri.isResourceRequest then some ⟨req.path, req.rawPath, ri.resource, none⟩
  else
    match ri.resource.findIdx? (· == ':') with
    | none => some ⟨req.path, req.rawPath, ri.resource, none⟩
    | some i =>
      let resource := ri.resource.take i
      let identity := ri.resource.drop (i + 1)
      if identity = [] then none
      else
        some ⟨replaceFirst ri.resource resource req.path,
          replaceFirst ri.resource resource req.rawPath,
          resource, some identity⟩

/-- Outcome of `WithWildcardIdentity`: forward (with the possibly updated
request and request info), or serve a 500 `NewInternalError` (either the
request info is missing, or the identity after the `:` is empty). -/
inductive WildcardIdentityResult where
  | forward (path rawPath : List Char) (ri : Option RequestInfo)
      (identity : Option (List Char))
  | internalError
deriving DecidableEq, Repr

/-- HTTP status code served by a `WildcardIdentityResult`
(`apierrors.NewInternalError` serves 500); `none` when forwarded. -/
def WildcardIdentityResult.statusCode : WildcardIdentityResult → Option Nat
  | .forward _ _ _ _ => none
  | .internalError => some 500

/-- Embedding of `WithWildcardIdentity` (`pkg/server/handler.go`): only
wildcard requests are inspected; a missing request info and a failing
`processResourceIdentity` both serve a 500, otherwise the (possibly
rewritten) request is forwarded. -/
def withWildcardIdentity (cluster : Option Cluster) (ri : Option RequestInfo)
    (req : HttpRequest) : WildcardIdentityResult :=
  match cluster with
  | none => .forward req.path req.rawPath ri none
  | some cl =>
    if cl.wildcard then
      match ri with
      | none => .internalError
      | some info =>
        match processResourceIdentity req info with
        | none => .internalError
        | some r =>
          .forward r.path r.rawPath (some { info with resource := r.resource })
            r.identity
    else .forward req.path req.rawPath ri none

/-- One entry of a discovery `APIResourceList` (`metav1.APIResource`); the
merge logic only inspects `name`, `kind` is carried payload. -/
structure APIResource where
  name : List Char
  kind : List Char
deriving DecidableEq, Repr

/-- Go byte-wise string comparison `a < b` (lexicographic; on UTF-8, byte
order coincides with code-point order, embedded via `Char.toNat`). -/
def lexLt : List Char → List Char → Bool
  | _, [] => false
  | [], _ :: _ => true
  | a :: as, b :: bs =>
    if a.toNat < b.toNat then true
    else if a.toNat = b.toNat then lexLt as bs
    else false

/-- Stable insertion of `x` into a list sorted by `lexLt` on names: `x` is
placed before the first element that is not strictly smaller than it, so
entries with equal names keep their original relative order — the
`sort.SliceStable` contract. -/
def insertByName (x : APIResource) : List APIResource → List APIResource
  | [] => [x]
  | y :: ys =>
    if lexLt y.name x.name then y :: insertByName x ys else x :: y :: ys

/-- Stable sort by resource name, the embedding of
`sort.SliceStable(resources, func(i, j) bool := name_i < name_j)` used by
`serveCoreV1Discovery`. -/
def sortSliceStableByName : List APIResource → List APIResource
  | [] => []
  | x :: xs => insertByName x (sortSliceStableByName xs)

/-- Non-strict name order on discovery entries: `x` precedes `y` when
`y.name` is not strictly smaller — the sortedness invariant produced by
a sort with comparator `lexLt`. -/
def nameLe (x y : APIResource) : Prop := lexLt y.name x.name = false

/-- Captured response of the nested native `/api/v1` invocation
(`inMemoryResponseWriter`): status code and raw body bytes. -/
structure NativeResponse where
  code : Nat
  body : List Char
deriving DecidableEq, Repr

/-- Outcome of the core-group discovery filter: pass the request through
the native filter chain, relay a non-200 nested response verbatim, serve
a 500 on a decode failure, or serve a merged resource list. -/
inductive DiscoveryOutcome where
  | passthrough
  | relay (code : Nat) (body : List Char)
  | internalError
  | serve (resources : List APIResource)
deriving DecidableEq, Repr

/-- Embedding of `serveCoreV1Discovery` (`pkg/server/handler.go`) with the
external collaborators abstracted: `decode` stands for the aggregator
discovery codec decoding `writer.data` into an `APIResourceList`, and
`crds` for the CRD-derived set built by
`apiextensionsapiserver.APIResourcesForGroupVersion("", "v1", crds)`.
A non-200 nested response is relayed unchanged, a failing decode serves a
500, and otherwise the CRD resources are appended to the native ones and
the combined list is stable-sorted by name and served. -/
def serveCoreV1Discovery (decode : List Char → Option (List APIResource))
    (native : NativeResponse) (crds : List APIResource) : DiscoveryOutcome :=
  if native.code ≠ 200 then .relay native.code native.body
  else
    match decode native.body with
    | none => .internalError
    | some nativeList => .serve (sortSliceStableByName (nativeList ++ crds))

/-- Embedding of the discovery arm of `mergeCRDsIntoCoreGroup`: a core
`/api/v1` discovery request that carries the passthrough header is handed
to the native filter chain, any other one is answered by
`serveCoreV1Discovery`. -/
def coreV1DiscoveryFilter (hasPassthroughHeader : Bool)
    (decode : List Char → Option (List APIResource))
    (native : NativeResponse) (crds : List APIResource) : DiscoveryOutcome :=
  if hasPassthroughHeader then .passthrough
  else serveCoreV1Discovery decode native crds

/-- Minimal JSON value universe needed here: strings, arrays and objects
(field order is significant, matching what the serializers emit). -/
inductive Json where
  | str (s : String)
  | arr (elements : List Json)
  | obj (fields : List (String × Json))

/-- Embedding of `unstructured.NestedString(claims, keys...)`: walks
nested objects by key and returns the final string value; a missing key,
a non-object intermediate value, or a non-string final value is a failure
(the caller treats `err` and `!ok` alike). -/
def nestedString (j : Json) (keys : List String) : Option String :=
  match j, keys with
  | .str s, [] => some s
  | _, [] => none
  | .obj fields, k :: rest =>
    match fields.lookup k with
    | some v => nestedString v rest
    | none => none
  | _, _ :: _ => none

/-- Cluster-name extraction of
`WithInClusterServiceAccountRequestRewrite`: the bound claim
`kubernetes.io.clusterName`, falling back to the flat legacy key
`kubernetes.io/serviceaccount/clusterName` whenever the first lookup errs
or misses. -/
def clusterNameFromClaims (claims : Json) : Option String :=
  match nestedString claims ["kubernetes.io", "clusterName"] with
  | some s => some s
  | none => nestedString claims ["kubernetes.io/serviceaccount/clusterName"]

/-- Segment processing of Go `path.Clean` on a rooted path: empty and `.`
segments vanish, `..` pops the previously kept segment (at the root it is
dropped); `acc` holds the kept segments in reverse. -/
def cleanSegments (acc : List (List Char)) : List (List Char) → List (List Char)
  | [] => acc.reverse
  | seg :: rest =>
    if seg = [] ∨ seg = ['.'] then cleanSegments acc rest
    else if seg = ['.', '.'] then cleanSegments acc.tail rest
    else cleanSegments (seg :: acc) rest

/-- Go `path.Clean` for rooted paths: the kept segments, each prefixed by
`/`; the empty result is `/`. -/
def pathCleanRooted (s : List Char) : List Char :=
  match cleanSegments [] (splitOnChar '/' s) with
  | [] => ['/']
  | segs => (segs.map (fun seg => '/' :: seg)).flatten

/-- Go `path.Join`: leading empty elements are dropped, the rest are
joined with `/` and cleaned.  Every use in the handler is rooted (the
first element is the literal `/clusters`), so the rooted `Clean`
applies. -/
def goPathJoin (elems : List (List Char)) : List Char :=
  match elems.dropWhile List.isEmpty with
  | [] => []
  | es => pathCleanRooted (List.intercalate ['/'] es)

/-- The `Bearer ` authorization scheme marker. -/
def bearerMarker : List Char := "Bearer ".toList

/-- Embedding of `WithInClusterServiceAccountRequestRewrite`
(`pkg/server/handler.go`).  `parseJwtClaims` abstracts
`jwt2.ParseSigned` plus `UnsafeClaimsWithoutVerification` (the JWT
library, an external collaborator): it maps a raw token to its claims
object, `none` when parsing fails.  Requests with a cluster header or a
sharded-request header, with a `/clusters/` request URI, without a bearer
token, with an unparseable token, or without a cluster-name claim are
forwarded unmodified; otherwise `/clusters/<name>` is prepended via
`path.Join` to both `URL.Path` and `RequestURI` before forwarding. -/
def withInClusterSARewrite (parseJwtClaims : List Char → Option Json)
    (req : HttpRequest) : HttpRequest :=
  if req.clusterHeader ≠ [] ∨ req.shardedHeader ≠ [] then req
  else if clustersMarker.isPrefixOf req.requestURI then req
  else if bearerMarker.isPrefixOf req.authHeader then
    match parseJwtClaims (req.authHeader.drop bearerMarker.length) with
    | none => req
    | some claims =>
      match clusterNameFromClaims claims with
      | none => req
      | some clusterName =>
        { req with
          path := goPathJoin ["/clusters".toList, clusterName.toList, req.path]
          requestURI :=
            goPathJoin ["/clusters".toList, clusterName.toList, req.requestURI] }
  else req

/-- A plain path segment: non-empty, not `.` or `..`, and free of `/` —
the segments on which `path.Clean` acts as the identity. -/
def plainSeg (seg : List Char) : Prop :=
  seg ≠ [] ∧ seg ≠ ['.'] ∧ seg ≠ ['.', '.'] ∧ '/' ∉ seg

instance (seg : List Char) : Decidable (plainSeg seg) := by
  unfold plainSeg
  infer_instance

/-- One observation the front-proxy readiness loop can make in an
iteration, after its one-second sleep: loading `admin.kubeconfig` afresh
(the loop intentionally re-reads it every iteration) may fail, building
the kcp client may fail, the GET `/readyz` probe may err — all of which
`continue` — or the probe returns an HTTP status code. -/
inductive ProbeStep where
  | loadFail
  | clientFail
  | probeFail
  | httpCode (rc : Nat)
deriving DecidableEq, Repr

/-- The environment of one iteration of the `startFrontProxy` readiness
loop: whether the context is done, whether the child process has
terminated (with its exit code), this iteration's probe observation, and
how the `select` resolves when both the `ctx.Done()` and `terminatedCh`
receives are ready at once — Go's `select` chooses uniformly at random
among ready cases, so the choice is an observation of the run, recorded
here (`true` means the `ctx.Done()` case is taken, `false` the
`terminatedCh` case; the field is irrelevant when at most one case is
ready). -/
structure LoopIter where
  ctxDone : Bool
  childExit : Option Int
  step : ProbeStep
  selectPick : Bool
deriving DecidableEq, Repr

/-- Outcome of the readiness loop: success (`break` out of the loop),
the cancellation error, the child exit-code error, or still looping
(the trace of iterations ran out). -/
inductive LoopOutcome where
  | ready
  | canceled
  | terminated (rc : Int)
  | stillWaiting
deriving DecidableEq, Repr

/-- Error message attached to the failure outcomes, per the
`fmt.Errorf` calls in `startFrontProxy`. -/
def LoopOutcome.message : LoopOutcome → Option String
  | .ready => none
  | .canceled => some "context canceled"
  | .terminated rc =>
    some ("kcp-front-proxy terminated with exit code " ++ toString rc)
  | .stillWaiting => none

/-- Embedding of the readiness `for` loop of `startFrontProxy` (the
test-server source): every iteration sleeps one second, then the
`select` returns the cancellation error when only the context is done,
the exit-code error when only the child has terminated, and — when both
receives are ready at once, which is common after a cancel because the
kill-on-cancel goroutine makes `cmd.Wait` deliver an exit code —
whichever of the two the run's recorded `selectPick` resolution chooses
(Go picks randomly); with neither ready, the `default` case falls
through, the admin kubeconfig is loaded anew and the probe runs: load,
client and probe failures `continue`, HTTP 200 breaks out ready, and any
other status code `continue`s.  The list carries one entry per
iteration; an exhausted list means the loop is still running. -/
def readinessLoop : List LoopIter → LoopOutcome
  | [] => .stillWaiting
  | it :: rest =>
    match it.ctxDone, it.childExit with
    | true, some rc => if it.selectPick then .canceled else .terminated rc
    | true, none => .canceled
    | false, some rc => .terminated rc
    | false, none =>
      match it.step with
      | .httpCode rc => if rc = 200 then .ready else readinessLoop rest
      | _ => readinessLoop rest

/-- An iteration that does not decide the loop: context not done, child
still running, probe not answering 200. -/
def nondecisive (it : LoopIter) : Prop :=
  it.ctxDone = false ∧ it.childExit = none ∧ it.step ≠ .httpCode 200

instance (it : LoopIter) : Decidable (nondecisive it) := by
  unfold nondecisive
  infer_instance

/-- Caller identity as the admission plugin sees it (`user.Info`):
username, uid, groups, and the `extra` map represented as an association
list.  Go maps are unordered and the JSON serializer emits keys in sorted
order, so the key-sorted association list is the canonical
representation (see `extraCanonical`). -/
structure UserInfo where
  username : String
  uid : String
  groups : List String
  extra : List (String × List String)
deriving DecidableEq, Repr

/-- The canonical representation of the `extra` map: keys strictly
sorted. -/
def extraCanonical (u : UserInfo) : Prop :=
  u.extra.Pairwise (fun a b => a.1 < b.1)

/-- Modelled from the spec: the JSON object serialization of a caller
identity for the owner annotation — fields in the canonical order
`username`, `uid`, `groups`, `extra`, each omitted when empty
(`omitempty`: the tests show the zero user serializing to `{}`). -/
def userFields (u : UserInfo) : List (String × Json) :=
  (if u.username = "" then [] else [("username", Json.str u.username)])
  ++ (if u.uid = "" then [] else [("uid", Json.str u.uid)])
  ++ (if u.groups = [] then []
      else [("groups", Json.arr (u.groups.map Json.str))])
  ++ (if u.extra = [] then []
      else [("extra",
        Json.obj (u.extra.map fun kv => (kv.1, Json.arr (kv.2.map Json.str))))])

/-- Modelled from the spec: the owner-annotation JSON value of a caller. -/
def userToJson (u : UserInfo) : Json :=
  Json.obj (userFields u)

/-- JSON string escaping for the characters that can occur here (quote
and backslash; no claim input needs the control-character escapes). -/
def escapeJsonChar (c : Char) : String :=
  if c = '"' then "\\\"" else if c = '\\' then "\\\\" else String.singleton c

/-- A JSON string literal with its quotes. -/
def renderString (s : String) : String :=
  "\"" ++ String.join (s.toList.map escapeJsonChar) ++ "\""

mutual

/-- Compact JSON rendering (no whitespace), as `json.Marshal` emits it. -/
def renderJson : Json → String
  | .str s => renderString s
  | .arr elements => "[" ++ renderList elements ++ "]"
  | .obj fields => "\x7b" ++ renderFields fields ++ "\x7d"

/-- Comma-joined rendering of JSON array elements. -/
def renderList : List Json → String
  | [] => ""
  | [j] => renderJson j
  | j :: rest => renderJson j ++ "," ++ renderList rest

/-- Comma-joined rendering of JSON object fields. -/
def renderFields : List (String × Json) → String
  | [] => ""
  | [(k, v)] => renderString k ++ ":" ++ renderJson v
  | (k, v) :: rest => renderString k ++ ":" ++ renderJson v ++ "," ++ renderFields rest

end

/-- JSON decoding of a string value. -/
def asStr : Json → Option String
  | .str s => some s
  | _ => none

/-- Element-wise decoding of a list of JSON strings; any non-string
element fails the whole list. -/
def decodeStrList : List Json → Option (List String)
  | [] => some []
  | j :: rest =>
    match asStr j, decodeStrList rest with
    | some s, some ss => some (s :: ss)
    | _, _ => none

/-- JSON decoding of a string array. -/
def asStrList : Json → Option (List String)
  | .arr elements => decodeStrList elements
  | _ => none

/-- Field-wise decoding of a string-to-string-array object body. -/
def decodeExtraFields : List (String × Json) → Option (List (String × List String))
  | [] => some []
  | (k, v) :: rest =>
    match asStrList v, decodeExtraFields rest with
    | some vs, some ess => some ((k, vs) :: ess)
    | _, _ => none

/-- JSON decoding of a string-to-string-array object. -/
def asExtra : Json → Option (List (String × List String))
  | .obj fields => decodeExtraFields fields
  | _ => none

/-- Decoding of an optional string field: an absent field is the empty
string (the `omitempty` inverse). -/
def strField (fields : List (String × Json)) (k : String) : Option String :=
  match fields.lookup k with
  | none => some ""
  | some j => asStr j

/-- Modelled from the spec: JSON decoding of an owner annotation back
into the caller identity, with absent fields decoding to their zero
values. -/
def jsonToUser : Json → Option UserInfo
  | .obj fields => do
    let un ← strField fields "username"
    let uidv ← strField fields "uid"
    let gs ← (match fields.lookup "groups" with
              | none => some []
              | some j => asStrList j)
    let ex ← (match fields.lookup "extra" with
              | none => some []
              | some j => asExtra j)
    pure ⟨un, uidv, gs, ex⟩
  | _ => none

/-- Reference to a `ClusterWorkspaceType` (`spec.type`): a name and the
path of the cluster holding the type. -/
structure WorkspaceTypeRef where
  name : String
  path : String
deriving DecidableEq, Repr

/-- The workspace phase: the three spec phases plus the absent (zero)
value an object without a status carries. -/
inductive WorkspacePhase where
  | absent
  | scheduling
  | initializing
  | ready
deriving DecidableEq, Repr

/-- Modelled from the spec: the phase order
`Scheduling < Initializing < Ready` (forward-only monotone); the absent
phase ranks below all of them. -/
def phaseOrdinal : WorkspacePhase → Nat
  | .absent => 0
  | .scheduling => 1
  | .initializing => 2
  | .ready => 3

/-- The string form of each phase, as it appears in error messages. -/
def phaseName : WorkspacePhase → String
  | .absent => ""
  | .scheduling => "Scheduling"
  | .initializing => "Initializing"
  | .ready => "Ready"

/-- The `ClusterWorkspace` fields the admission plugin inspects:
`annots` models `metadata.annotations`, `typeRef` models `spec.type`,
`phase` models `status.phase`, `pendingInits` models
`status.initializers`, `locationCurrent` models
`status.location.current`, and `baseURL` models `status.baseURL`. -/
structure ClusterWorkspace where
  annots : List (String × String)
  typeRef : WorkspaceTypeRef
  phase : WorkspacePhase
  pendingInits : List String
  locationCurrent : String
  baseURL : String
deriving DecidableEq, Repr

/-- The admission operation (`admission.Create` / `admission.Update`). -/
inductive AdmissionOp where
  | create
  | update
deriving DecidableEq, Repr

/-- The `admission.Attributes` the plugin reads: resource, operation, the
object, the old object on update, and the requesting user. -/
structure AdmissionAttributes where
  resource : String
  op : AdmissionOp
  obj : ClusterWorkspace
  oldObj : Option ClusterWorkspace
  userInfo : UserInfo
deriving DecidableEq, Repr

/-- The owner-annotation key `tenancy.kcp.dev/owner`. -/
def ownerKey : String := "tenancy.kcp.dev/owner"

/-- Annotation lookup. -/
def getAnnot (k : String) (annots : List (String × String)) : Option String :=
  annots.lookup k

/-- Annotation update (replace any previous value of the key). -/
def setAnnot (k v : String) (annots : List (String × String)) :
    List (String × String) :=
  annots.filter (fun kv => kv.1 != k) ++ [(k, v)]

/-- Modelled from the spec: `Admit` of the clusterworkspaces admission
plugin (its implementation file is not part of the excerpt; behavior per
spec §4.E, confirmed by `TestAdmit`): on create, stamp the owner
annotation with the canonical JSON serialization of the caller; do
nothing on update or for other resources. -/
def wsAdmit (a : AdmissionAttributes) : AdmissionAttributes :=
  if a.resource != "clusterworkspaces" then a
  else
    match a.op with
    | .create =>
      { a with obj := { a.obj with
          annots := setAnnot ownerKey (renderJson (userToJson a.userInfo))
            a.obj.annots } }
    | .update => a

/-- One field error of `Validate`; `message` renders the strings the
tests expect. -/
inductive WsError where
  | typeImmutable
  | locationUnset
  | baseURLUnset
  | cannotTransition (oldPhase newPhase : WorkspacePhase)
  | ownerMismatch (expected : String)
  | readyPendingInits
  | readyBaseURLMissing
  | readyLocationMissing
deriving DecidableEq, Repr

/-- Error message of each validation failure, matching
`admission_test.go` expectations. -/
def WsError.message : WsError → String
  | .typeImmutable => "field is immutable"
  | .locationUnset => "status.location.current cannot be unset"
  | .baseURLUnset => "status.baseURL cannot be unset"
  | .cannotTransition o n =>
    "cannot transition from \"" ++ phaseName o ++ "\" to \"" ++ phaseName n ++ "\""
  | .ownerMismatch expected =>
    "expected user annotation tenancy.kcp.dev/owner=" ++ expected
  | .readyPendingInits => "spec.initializers must be empty for phase Ready"
  | .readyBaseURLMissing => "status.baseURL must be set for phase Ready"
  | .readyLocationMissing => "status.location.current must be set for phase Ready"

/-- Modelled from the spec: rule (6) — an object in phase `Ready` needs
empty initializers, a non-empty baseURL and a non-empty current
location. -/
def readyErrs (ws : ClusterWorkspace) : List WsError :=
  if ws.phase = .ready then
    (if ws.pendingInits ≠ [] then [.readyPendingInits] else [])
    ++ (if ws.baseURL = "" then [.readyBaseURLMissing] else [])
    ++ (if ws.locationCurrent = "" then [.readyLocationMissing] else [])
  else []

/-- Modelled from the spec: the update rules — (2) `spec.type` is
immutable, (3)/(4) `status.location.current` and `status.baseURL` cannot
transition non-empty to empty, (5) the phase ordinal may not decrease. -/
def updateErrs (ws old : ClusterWorkspace) : List WsError :=
  (if ws.typeRef ≠ old.typeRef then [.typeImmutable] else [])
  ++ (if old.locationCurrent ≠ "" ∧ ws.locationCurrent = ""
      then [.locationUnset] else [])
  ++ (if old.baseURL ≠ "" ∧ ws.baseURL = "" then [.baseURLUnset] else [])
  ++ (if phaseOrdinal ws.phase < phaseOrdinal old.phase
      then [.cannotTransition old.phase ws.phase] else [])

/-- Modelled from the spec: rule (1) — on create, the owner annotation
must equal the value `Admit` stamps. -/
def createErrs (ws : ClusterWorkspace) (u : UserInfo) : List WsError :=
  if getAnnot ownerKey ws.annots ≠ some (renderJson (userToJson u))
  then [.ownerMismatch (renderJson (userToJson u))] else []

/-- Modelled from the spec: `Validate` of the clusterworkspaces admission
plugin (its implementation file is not part of the excerpt; rules per
spec §4.E, with every message confirmed by `admission_test.go`):
other resources are ignored; updates check immutability, the no-unset
rules and the forward-only phase order; creates check the owner
annotation; and any object in phase `Ready` must meet the `Ready`
requirements.  Validation accepts exactly when no error is produced. -/
def validate (a : AdmissionAttributes) : List WsError :=
  if a.resource != "clusterworkspaces" then []
  else
    (match a.op, a.oldObj with
     | .update, some old => updateErrs a.obj old
     | .create, _ => createErrs a.obj a.userInfo
     | _, _ => []) ++ readyErrs a.obj

/-- The `TestAdmit` create: workspace `test` of type `foo` from
`root:org`, created by user `someone`. -/
def ownerCreateAttrs : AdmissionAttributes :=
  ⟨"clusterworkspaces", .create,
    ⟨[], ⟨"foo", "root:org"⟩, .absent, [], "", ""⟩, none,
    ⟨"someone", "id", ["a", "b"], [("one", ["1", "01"])]⟩⟩

/-- A test-row clusterworkspace in the given phase: owner annotation of
the zero user, type `foo` from `root:org`, no initializers, a location
and a baseURL. -/
def wsRow (ph : WorkspacePhase) : ClusterWorkspace :=
  ⟨[(ownerKey, "\x7b\x7d")], ⟨"foo", "root:org"⟩, ph, [], "somewhere",
    "https://kcp.bigcorp.com/clusters/org:test"⟩

/-- The "rejects transition to previous phase" update: Ready back to
Initializing. -/
def phaseRollbackAttrs : AdmissionAttributes :=
  ⟨"clusterworkspaces", .update, wsRow .initializing, some (wsRow .ready),
    ⟨"", "", [], []⟩⟩

/-- An update that keeps the phase at Ready. -/
def phaseEqualAttrs : AdmissionAttributes :=
  ⟨"clusterworkspaces", .update, wsRow .ready, some (wsRow .ready),
    ⟨"", "", [], []⟩⟩

/-- A create of a `Ready` clusterworkspace whose three `Ready` conditions
hold but whose owner annotation does not match the requesting user. -/
def readyCreateBadOwner : AdmissionAttributes :=
  ⟨"clusterworkspaces", .create,
    ⟨[(ownerKey, "nope")], ⟨"foo", "root:org"⟩, .ready, [], "somewhere",
      "https://kcp.bigcorp.com/clusters/org:test"⟩,
    none, ⟨"someone", "id", ["a", "b"], []⟩⟩

/-- A valid direct create of a `Ready` clusterworkspace (the
"allows creation to ready directly when valid" test row): zero user, the
matching owner annotation, and all three `Ready` conditions. -/
def readyCreateOk : AdmissionAttributes :=
  ⟨"clusterworkspaces", .create,
    ⟨[(ownerKey, "\x7b\x7d")], ⟨"foo", "root:org"⟩, .ready, [], "somewhere",
      "https://kcp.bigcorp.com/clusters/org:test"⟩,
    none, ⟨"", "", [], []⟩⟩

end KcpServer

/- ===== Theorems ===== -/

namespace KcpServer

/-- Helper: `List.findIdx?` finds nothing when the predicate holds nowhere. -/
theorem findIdx?_eq_none_of_all {α} (p : α → Bool) :
    ∀ l : List α, (∀ a ∈ l, p a = false) → l.findIdx? p = none := by
  intro l
  induction l with
  | nil => intro _; rfl
  | cons a as ih =>
    intro h
    have ha : p a = false := h a (List.mem_cons_self a as)
    have hrest : as.findIdx? p = none := ih fun x hx => h x (List.mem_cons_of_mem a hx)
    simp [List.findIdx?_cons, ha, hrest]

/-- C10: a request whose URL path starts with `/clusters/` but has no
further `/` after that marker is answered by `WithClusterScope` with a
BadRequest (400) status and is never forwarded to the inner handler. -/
theorem clusterScope_no_slash_after_marker_bad_request (req : HttpRequest)
    (hpre : clustersMarker.isPrefixOf req.path = true)
    (hnoslash : ∀ c ∈ req.path.drop clustersMarker.length, c ≠ '/') :
    withClusterScope req = .badRequest ∧
      (withClusterScope req).statusCode = some 400 := by
  have hfind : (req.path.drop clustersMarker.length).findIdx? (· == '/') = none := by
    apply findIdx?_eq_none_of_all
    intro a ha
    simpa using hnoslash a ha
  have h : withClusterScope req = .badRequest := by
    unfold withClusterScope
    rw [hpre]
    simp only [if_true, hfind]
  exact ⟨h, by rw [h]; rfl⟩

/-- C10 witness: the concrete request `GET /clusters/root` (no trailing
slash) is rejected with 400. -/
theorem clusterScope_no_slash_after_marker_bad_request_witness :
    withClusterScope ⟨"/clusters/root".toList, [], [], [], [], []⟩ = .badRequest ∧
      (withClusterScope ⟨"/clusters/root".toList, [], [], [], [], []⟩).statusCode
        = some 400 :=
  clusterScope_no_slash_after_marker_bad_request _ (by decide) (by decide)

/-- C1: at the concrete request `GET /clusters/demo%3Aorg/api` (decoded
path `/clusters/demo:org/api`, raw path `/clusters/demo%3Aorg/api`),
`WithClusterScope` forwards with `URL.Path = "/api"` and cluster name
`demo:org` as the claim states, but the raw path is left as
`s/demo%3Aorg/api` instead of the aligned `/api`: the shortening loop
slices `RawPath[slash:]` where `slash` is an index into `RawPath[1:]`,
an off-by-one that keeps the last byte of the segment being removed, so
the two leading segments are not removed from `URL.RawPath` and it does
not stay aligned with `URL.Path`. -/
theorem clusterScope_rawPath_not_aligned :
    withClusterScope
        ⟨"/clusters/demo:org/api".toList, "/clusters/demo%3Aorg/api".toList,
          [], [], [], []⟩
      = .forward "/api".toList "s/demo%3Aorg/api".toList ⟨"demo:org".toList, false⟩
    ∧ "s/demo%3Aorg/api".toList ≠ "/api".toList := by
  exact ⟨by decide, by decide⟩


/-- C6: a wildcard-cluster resource request whose verb is neither `list`
nor `watch` is answered by `WithWildcardListWatchGuard` with the
MethodNotSupported (405) status whose message ends in the literal
`" in the `*` logical cluster"`, and is never forwarded to the inner
handler. -/
theorem wildcardGuard_rejects_non_list_watch (cl : Cluster) (info : RequestInfo)
    (hw : cl.wildcard = true) (hres : info.isResourceRequest = true)
    (hlist : info.verb ≠ "list".toList) (hwatch : info.verb ≠ "watch".toList) :
    withWildcardListWatchGuard (some cl) (some info)
      = .methodNotSupported 405
          (methodNotSupportedMessage info.apiGroup info.resource info.verb
            ++ wildcardGuardSuffix)
    ∧ withWildcardListWatchGuard (some cl) (some info) ≠ .forward := by
  have h : withWildcardListWatchGuard (some cl) (some info)
      = .methodNotSupported 405
          (methodNotSupportedMessage info.apiGroup info.resource info.verb
            ++ wildcardGuardSuffix) := by
    simp only [withWildcardListWatchGuard, hw, hres, if_true]
    rw [if_pos]
    simp only [Bool.and_eq_true, Bool.not_eq_true', Bool.or_eq_false_iff]
    exact ⟨trivial, by simpa using hlist, by simpa using hwatch⟩
  refine ⟨h, ?_⟩
  rw [h]
  exact fun hc => GuardResult.noConfusion hc

/-- C6 witness: a wildcard `get` on `pods` in the core group is rejected
with 405 and not forwarded. -/
theorem wildcardGuard_rejects_non_list_watch_witness :
    withWildcardListWatchGuard (some ⟨wildcardName, true⟩)
        (some ⟨true, "get".toList, "pods".toList, [], "v1".toList⟩)
      = .methodNotSupported 405
          (methodNotSupportedMessage [] "pods".toList "get".toList
            ++ wildcardGuardSuffix)
    ∧ withWildcardListWatchGuard (some ⟨wildcardName, true⟩)
        (some ⟨true, "get".toList, "pods".toList, [], "v1".toList⟩) ≠ .forward :=
  wildcardGuard_rejects_non_list_watch _ _ rfl rfl (by decide) (by decide)

/-- Helper: index of the first separator in `res ++ c :: rest` when `res`
is separator-free. -/
theorem findIdx?_append_sep (p : Char → Bool) (res : List Char) (c : Char)
    (rest : List Char) (hres : ∀ a ∈ res, p a = false) (hc : p c = true) :
    (res ++ c :: rest).findIdx? p = some res.length := by
  induction res with
  | nil => simp [List.findIdx?_cons, hc]
  | cons a as ih =>
    have ha : p a = false := hres a (List.mem_cons_self a as)
    have hrec := ih fun x hx => hres x (List.mem_cons_of_mem a hx)
    simp [List.findIdx?_cons, ha, hrec]

/-- Helper: `replaceFirst` on a string the pattern starts. -/
theorem replaceFirst_of_isPrefixOf (pat rep s : List Char)
    (h : pat.isPrefixOf s = true) :
    replaceFirst pat rep s = rep ++ s.drop pat.length := by
  cases s with
  | nil =>
    have hpat : pat = [] := by
      cases pat with
      | nil => rfl
      | cons a as => simp [List.isPrefixOf] at h
    subst hpat
    simp [replaceFirst]
  | cons c rest => simp [replaceFirst, h]

/-- Helper: `replaceFirst` skips a position where the pattern does not
match. -/
theorem replaceFirst_cons_of_neg (pat rep : List Char) (c : Char)
    (rest : List Char) (h : pat.isPrefixOf (c :: rest) = false) :
    replaceFirst pat rep (c :: rest) = c :: replaceFirst pat rep rest := by
  simp only [replaceFirst]
  rw [if_neg]
  intro hc
  exact absurd (h.symm.trans hc) (by decide)

/-- Helper: `replaceFirst` rewrites exactly the first occurrence of the
pattern: if no occurrence starts before `pre.length`, the occurrence
after `pre` is the one replaced. -/
theorem replaceFirst_first_occurrence (pat rep pre suf : List Char)
    (h : ∀ j < pre.length, pat.isPrefixOf ((pre ++ pat ++ suf).drop j) = false) :
    replaceFirst pat rep (pre ++ pat ++ suf) = pre ++ rep ++ suf := by
  induction pre with
  | nil =>
    have hp : pat.isPrefixOf (pat ++ suf) = true := by
      rw [List.isPrefixOf_iff_prefix]
      exact List.prefix_append pat suf
    simp only [List.nil_append]
    rw [replaceFirst_of_isPrefixOf pat rep _ hp, List.drop_left]
  | cons a pre' ih =>
    have h0 : pat.isPrefixOf (a :: (pre' ++ pat ++ suf)) = false := by
      have := h 0 (by simp)
      simpa using this
    have hstep : replaceFirst pat rep ((a :: pre') ++ pat ++ suf)
        = a :: replaceFirst pat rep (pre' ++ pat ++ suf) := by
      have : (a :: pre') ++ pat ++ suf = a :: (pre' ++ pat ++ suf) := by simp
      rw [this, replaceFirst_cons_of_neg pat rep a _ h0]
    rw [hstep, ih]
    · simp
    · intro j hj
      have := h (j + 1) (by simpa using Nat.succ_lt_succ hj)
      simpa using this

/-- C7: for wildcard list/watch resource requests whose resource carries a
`:` separator, `WithWildcardIdentity` (1) serves a 500 InternalError and
does not forward when the identity after the colon is empty, and (2)
otherwise forwards with the identity placed in the context, the request
info resource replaced by the part before the colon, and `URL.Path` /
`URL.RawPath` rewritten (at the first occurrence of the full
`resource:identity` string, which the side conditions pin to the given
split) to drop the `:identity` suffix. -/
theorem wildcardIdentity_identity_handling :
    (∀ (cl : Cluster) (info : RequestInfo) (req : HttpRequest) (res : List Char),
      cl.wildcard = true → info.isResourceRequest = true →
      (info.verb = "list".toList ∨ info.verb = "watch".toList) →
      info.resource = res ++ [':'] → (∀ a ∈ res, a ≠ ':') →
      withWildcardIdentity (some cl) (some info) req = .internalError ∧
        (withWildcardIdentity (some cl) (some info) req).statusCode = some 500)
  ∧ (∀ (cl : Cluster) (info : RequestInfo) (req : HttpRequest)
        (res idn p1 p2 r1 r2 : List Char),
      cl.wildcard = true → info.isResourceRequest = true →
      (info.verb = "list".toList ∨ info.verb = "watch".toList) →
      info.resource = res ++ ':' :: idn → (∀ a ∈ res, a ≠ ':') → idn ≠ [] →
      req.path = p1 ++ info.resource ++ p2 →
      (∀ j < p1.length, info.resource.isPrefixOf (req.path.drop j) = false) →
      req.rawPath = r1 ++ info.resource ++ r2 →
      (∀ j < r1.length, info.resource.isPrefixOf (req.rawPath.drop j) = false) →
      withWildcardIdentity (some cl) (some info) req
        = .forward (p1 ++ res ++ p2) (r1 ++ res ++ r2)
            (some { info with resource := res }) (some idn)) := by
  constructor
  · intro cl info req res hw hres _hverb hsplit hnoc
    have hfind : info.resource.findIdx? (· == ':') = some res.length := by
      rw [hsplit]
      exact findIdx?_append_sep _ res ':' []
        (fun a ha => by simpa using hnoc a ha) (by decide)
    have hid : info.resource.drop (res.length + 1) = [] := by
      rw [hsplit]
      apply List.drop_eq_nil_of_le
      simp
    have hproc : processResourceIdentity req info = none := by
      simp [processResourceIdentity, hres, hfind, hid]
    have h : withWildcardIdentity (some cl) (some info) req = .internalError := by
      simp [withWildcardIdentity, hw, hproc]
    exact ⟨h, by rw [h]; rfl⟩
  · intro cl info req res idn p1 p2 r1 r2 hw hres _hverb hsplit hnoc hidn
      hpath hpfirst hraw hrfirst
    have hfind : info.resource.findIdx? (· == ':') = some res.length := by
      rw [hsplit]
      exact findIdx?_append_sep _ res ':' idn
        (fun a ha => by simpa using hnoc a ha) (by decide)
    have hid : info.resource.drop (res.length + 1) = idn := by
      rw [hsplit]
      have hlen : (res ++ [':']).length = res.length + 1 := by simp
      rw [List.append_cons, ← hlen, List.drop_left]
    have htake : info.resource.take res.length = res := by
      rw [hsplit]
      exact List.take_left res (':' :: idn)
    have hrepp : replaceFirst info.resource res req.path = p1 ++ res ++ p2 := by
      rw [hpath]
      apply replaceFirst_first_occurrence
      intro j hj
      have := hpfirst j hj
      rwa [hpath] at this
    have hrepr : replaceFirst info.resource res req.rawPath = r1 ++ res ++ r2 := by
      rw [hraw]
      apply replaceFirst_first_occurrence
      intro j hj
      have := hrfirst j hj
      rwa [hraw] at this
    have hproc : processResourceIdentity req info
        = some ⟨p1 ++ res ++ p2, r1 ++ res ++ r2, res, some idn⟩ := by
      simp only [processResourceIdentity, hres, Bool.not_true, Bool.false_eq_true,
        if_false, hfind, hid, htake, hrepp, hrepr]
      rw [if_neg hidn]
    simp [withWildcardIdentity, hw, hproc]

/-- C7 witness: wildcard `list` of `widgets:` (empty identity) is a 500,
and wildcard `list` of `/apis/foo/v1/widgets:idabc123` forwards with
resource `widgets`, identity `idabc123`, and the suffix stripped from the
path and raw path. -/
theorem wildcardIdentity_identity_handling_witness :
    (withWildcardIdentity (some ⟨wildcardName, true⟩)
        (some ⟨true, "list".toList, "widgets:".toList, "foo".toList, "v1".toList⟩)
        ⟨"/apis/foo/v1/widgets:".toList, [], [], [], [], []⟩ = .internalError
      ∧ (withWildcardIdentity (some ⟨wildcardName, true⟩)
          (some ⟨true, "list".toList, "widgets:".toList, "foo".toList, "v1".toList⟩)
          ⟨"/apis/foo/v1/widgets:".toList, [], [], [], [], []⟩).statusCode
         = some 500)
  ∧ withWildcardIdentity (some ⟨wildcardName, true⟩)
      (some ⟨true, "list".toList, "widgets:idabc123".toList, "foo".toList,
        "v1".toList⟩)
      ⟨"/apis/foo/v1/widgets:idabc123".toList,
        "/apis/foo/v1/widgets:idabc123".toList, [], [], [], []⟩
    = .forward "/apis/foo/v1/widgets".toList "/apis/foo/v1/widgets".toList
        (some ⟨true, "list".toList, "widgets".toList, "foo".toList, "v1".toList⟩)
        (some "idabc123".toList) := by
  constructor
  · exact wildcardIdentity_identity_handling.1 _ _ _ "widgets".toList rfl rfl
      (Or.inl rfl) (by decide) (by decide)
  · exact wildcardIdentity_identity_handling.2 _ _ _ "widgets".toList
      "idabc123".toList "/apis/foo/v1/".toList [] "/apis/foo/v1/".toList []
      rfl rfl (Or.inl rfl) (by decide) (by decide) (by decide) (by decide)
      (by decide) (by decide) (by decide)

/-- Helper: `lexLt` is asymmetric. -/
theorem lexLt_asymm : ∀ a b : List Char, lexLt a b = true → lexLt b a = false := by
  intro a
  induction a with
  | nil =>
    intro b h
    cases b with
    | nil => simp [lexLt] at h
    | cons y ys => simp [lexLt]
  | cons x xs ih =>
    intro b h
    cases b with
    | nil => simp [lexLt] at h
    | cons y ys =>
      simp only [lexLt] at h ⊢
      split at h
      · next hlt =>
        rw [if_neg (by omega), if_neg (by omega)]
      · split at h
        · next hne heq =>
          rw [if_neg (by omega), if_pos heq.symm]
          exact ih ys h
        · exact absurd h (by simp)

/-- Helper: the negation of `lexLt` is transitive. -/
theorem lexLt_neg_trans : ∀ a b c : List Char,
    lexLt b a = false → lexLt c b = false → lexLt c a = false := by
  intro a
  induction a with
  | nil =>
    intro b c _ _
    cases c <;> simp [lexLt]
  | cons x xs ih =>
    intro b c hba hcb
    cases b with
    | nil => simp [lexLt] at hba
    | cons y ys =>
      cases c with
      | nil => simp [lexLt] at hcb
      | cons z zs =>
        simp only [lexLt] at hba hcb ⊢
        by_cases h1 : y.toNat < x.toNat
        · rw [if_pos h1] at hba
          exact absurd hba (by simp)
        · rw [if_neg h1] at hba
          by_cases h2 : z.toNat < y.toNat
          · rw [if_pos h2] at hcb
            exact absurd hcb (by simp)
          · rw [if_neg h2] at hcb
            rw [if_neg (show ¬ z.toNat < x.toNat by omega)]
            by_cases h3 : z.toNat = x.toNat
            · rw [if_pos h3]
              have hxy : y.toNat = x.toNat := by omega
              have hzy : z.toNat = y.toNat := by omega
              rw [if_pos hxy] at hba
              rw [if_pos hzy] at hcb
              exact ih ys zs hba hcb
            · rw [if_neg h3]

/-- Helper: stable insertion only reorders, it keeps every element. -/
theorem insertByName_perm (x : APIResource) :
    ∀ l : List APIResource, (insertByName x l).Perm (x :: l) := by
  intro l
  induction l with
  | nil => simp [insertByName]
  | cons y ys ih =>
    simp only [insertByName]
    split
    · exact (ih.cons y).trans (List.Perm.swap x y ys)
    · exact List.Perm.refl _

/-- Helper: the stable sort is a permutation of its input. -/
theorem sortSliceStableByName_perm :
    ∀ l : List APIResource, (sortSliceStableByName l).Perm l := by
  intro l
  induction l with
  | nil => simp [sortSliceStableByName]
  | cons x xs ih =>
    exact (insertByName_perm x (sortSliceStableByName xs)).trans (ih.cons x)

/-- Helper: stable insertion preserves sortedness by name. -/
theorem insertByName_pairwise (x : APIResource) :
    ∀ l : List APIResource, l.Pairwise nameLe →
      (insertByName x l).Pairwise nameLe := by
  intro l
  induction l with
  | nil => intro _; simp [insertByName, nameLe]
  | cons y ys ih =>
    intro hp
    rcases List.pairwise_cons.mp hp with ⟨hy, hys⟩
    simp only [insertByName]
    split
    · next hlt =>
      apply List.pairwise_cons.mpr
      refine ⟨?_, ih hys⟩
      intro z hz
      have hz' : z = x ∨ z ∈ ys := by
        simpa using (insertByName_perm x ys).mem_iff.mp hz
      cases hz' with
      | inl he =>
        subst he
        exact lexLt_asymm _ _ hlt
      | inr hm => exact hy z hm
    · next hnlt =>
      apply List.pairwise_cons.mpr
      constructor
      · intro z hz
        have hz' : z = y ∨ z ∈ ys := by simpa using hz
        cases hz' with
        | inl he =>
          subst he
          exact Bool.eq_false_iff.mpr hnlt
        | inr hm =>
          exact lexLt_neg_trans x.name y.name z.name
            (Bool.eq_false_iff.mpr hnlt) (hy z hm)
      · exact List.pairwise_cons.mpr ⟨hy, hys⟩

/-- Helper: the stable sort produces a list sorted by name. -/
theorem sortSliceStableByName_sorted :
    ∀ l : List APIResource, (sortSliceStableByName l).Pairwise nameLe := by
  intro l
  induction l with
  | nil => simp [sortSliceStableByName]
  | cons x xs ih => exact insertByName_pairwise x _ ih

/-- C2 counterexample: at a core `/api/v1` discovery request without the
passthrough header whose nested native handler answers 200 with a list
containing `pods`, and whose CRD machinery also derives a `pods` resource
for group `""` version `v1`, the served list contains two entries named
`pods`: `serveCoreV1Discovery` appends and sorts but never deduplicates,
so the claim that the result "contains no two entries with the same name"
fails. -/
theorem coreV1Discovery_duplicate_names_counterexample :
    coreV1DiscoveryFilter false
        (fun _ => some [(⟨"pods".toList, "Pod".toList⟩ : APIResource)]) ⟨200, []⟩
        [(⟨"pods".toList, "CustomPod".toList⟩ : APIResource)]
      = .serve [⟨"pods".toList, "Pod".toList⟩,
          ⟨"pods".toList, "CustomPod".toList⟩]
    ∧ ¬ (([(⟨"pods".toList, "Pod".toList⟩ : APIResource),
          ⟨"pods".toList, "CustomPod".toList⟩].map APIResource.name).Nodup) := by
  exact ⟨by decide, by decide⟩

/-- C2 (amended): for a core `/api/v1` discovery request without the
passthrough header whose nested native handler answers 200 and whose body
decodes to the native resource list, the served `APIResourceList` is the
stable sort by name of the concatenation of the native and CRD-derived
resources: it is sorted in non-decreasing name order, it contains exactly
the union of the two sets as a multiset, and it has no two entries with
the same name whenever the combined input has none (the code performs no
deduplication). -/
theorem coreV1Discovery_merge_sorted_union
    (decode : List Char → Option (List APIResource))
    (body : List Char) (nativeList crds : List APIResource)
    (hdec : decode body = some nativeList) :
    coreV1DiscoveryFilter false decode ⟨200, body⟩ crds
      = .serve (sortSliceStableByName (nativeList ++ crds))
    ∧ (sortSliceStableByName (nativeList ++ crds)).Pairwise nameLe
    ∧ (sortSliceStableByName (nativeList ++ crds)).Perm (nativeList ++ crds)
    ∧ (((nativeList ++ crds).map APIResource.name).Nodup →
        ((sortSliceStableByName (nativeList ++ crds)).map APIResource.name).Nodup) := by
  refine ⟨?_, sortSliceStableByName_sorted _, sortSliceStableByName_perm _, ?_⟩
  · simp [coreV1DiscoveryFilter, serveCoreV1Discovery, hdec]
  · intro h
    exact (((sortSliceStableByName_perm (nativeList ++ crds)).map
      APIResource.name).nodup_iff).mpr h

/-- C2 witness: merging native `pods` with a CRD-derived `foos` resource
serves the sorted, duplicate-free list `[foos, pods]`. -/
theorem coreV1Discovery_merge_sorted_union_witness :
    coreV1DiscoveryFilter false
        (fun _ => some [(⟨"pods".toList, "Pod".toList⟩ : APIResource)]) ⟨200, []⟩
        [(⟨"foos".toList, "Foo".toList⟩ : APIResource)]
      = .serve (sortSliceStableByName
          ([(⟨"pods".toList, "Pod".toList⟩ : APIResource)] ++ [(⟨"foos".toList, "Foo".toList⟩ : APIResource)]))
    ∧ (sortSliceStableByName
        ([(⟨"pods".toList, "Pod".toList⟩ : APIResource)]
          ++ [(⟨"foos".toList, "Foo".toList⟩ : APIResource)])).Pairwise nameLe
    ∧ (sortSliceStableByName
        ([(⟨"pods".toList, "Pod".toList⟩ : APIResource)]
          ++ [(⟨"foos".toList, "Foo".toList⟩ : APIResource)])).Perm
        ([(⟨"pods".toList, "Pod".toList⟩ : APIResource)] ++ [(⟨"foos".toList, "Foo".toList⟩ : APIResource)])
    ∧ ((([(⟨"pods".toList, "Pod".toList⟩ : APIResource)]
          ++ [(⟨"foos".toList, "Foo".toList⟩ : APIResource)]).map APIResource.name).Nodup →
        ((sortSliceStableByName
          ([(⟨"pods".toList, "Pod".toList⟩ : APIResource)]
            ++ [(⟨"foos".toList, "Foo".toList⟩ : APIResource)])).map APIResource.name).Nodup) :=
  coreV1Discovery_merge_sorted_union _ _ _ _ rfl

/-- Helper: `splitOnChar` never returns the empty list. -/
theorem splitOnChar_ne_nil (c : Char) : ∀ s : List Char, splitOnChar c s ≠ [] := by
  intro s
  cases s with
  | nil => simp [splitOnChar]
  | cons a rest =>
    cases h : splitOnChar c rest with
    | nil => exact absurd h (splitOnChar_ne_nil c rest)
    | cons r rs =>
      simp only [splitOnChar, h]
      split <;> simp

/-- Helper: a leading separator opens an empty segment. -/
theorem splitOnChar_cons_sep (c : Char) (t : List Char) :
    splitOnChar c (c :: t) = [] :: splitOnChar c t := by
  simp only [splitOnChar]
  cases h : splitOnChar c t with
  | nil => exact absurd h (splitOnChar_ne_nil c t)
  | cons r rs => simp

/-- Helper: a separator-free block merges into the first segment. -/
theorem splitOnChar_append_no_sep (c : Char) :
    ∀ (seg t r : List Char) (rs : List (List Char)), c ∉ seg →
      splitOnChar c t = r :: rs →
      splitOnChar c (seg ++ t) = (seg ++ r) :: rs := by
  intro seg
  induction seg with
  | nil =>
    intro t r rs _ h
    simpa using h
  | cons a seg' ih =>
    intro t r rs hmem h
    have hne : (a == c) = false := by
      simp only [beq_eq_false_iff_ne, ne_eq]
      intro he
      exact hmem (he ▸ List.mem_cons_self a seg')
    have hrec := ih t r rs (fun hm => hmem (List.mem_cons_of_mem a hm)) h
    simp only [List.cons_append, splitOnChar, hne, List.append_eq]
    rw [hrec]
    simp

/-- Helper: splitting the `/`-joined form of slash-free segments recovers
the segments (preceded by the empty segment opened by the leading `/`). -/
theorem splitOnChar_flatten :
    ∀ L : List (List Char), (∀ s ∈ L, '/' ∉ s) →
      splitOnChar '/' ((L.map (fun s => '/' :: s)).flatten) = [] :: L := by
  intro L
  induction L with
  | nil => simp [splitOnChar]
  | cons s L' ih =>
    intro h
    have hs : '/' ∉ s := h s (List.mem_cons_self s L')
    have hrec := ih fun x hx => h x (List.mem_cons_of_mem s hx)
    simp only [List.map_cons, List.flatten_cons, List.cons_append]
    rw [splitOnChar_cons_sep]
    rw [splitOnChar_append_no_sep '/' s _ [] L' hs hrec]
    simp

/-- Helper: `cleanSegments` pushes a plain segment onto the kept stack. -/
theorem cleanSegments_cons_plain (acc : List (List Char)) (seg : List Char)
    (rest : List (List Char)) (h : plainSeg seg) :
    cleanSegments acc (seg :: rest) = cleanSegments (seg :: acc) rest := by
  obtain ⟨h1, h2, h3, _⟩ := h
  simp [cleanSegments, h1, h2, h3]

/-- Helper: `cleanSegments` keeps a run of plain segments unchanged. -/
theorem cleanSegments_all_plain :
    ∀ (rest : List (List Char)) (acc : List (List Char)),
      (∀ s ∈ rest, plainSeg s) → cleanSegments acc rest = acc.reverse ++ rest := by
  intro rest
  induction rest with
  | nil => intro acc _; simp [cleanSegments]
  | cons s rest' ih =>
    intro acc h
    rw [cleanSegments_cons_plain acc s rest' (h s (List.mem_cons_self s rest'))]
    rw [ih (s :: acc) fun x hx => h x (List.mem_cons_of_mem s hx)]
    simp

/-- Helper: `path.Join("/clusters", nm, p)` on a clean rooted path `p`
made of plain segments is plain string concatenation. -/
theorem goPathJoin_prepend (nm : List Char) (segs : List (List Char))
    (hnm : plainSeg nm) (hsegs : ∀ s ∈ segs, plainSeg s) :
    goPathJoin ["/clusters".toList, nm, (segs.map (fun s => '/' :: s)).flatten]
      = "/clusters/".toList ++ nm ++ (segs.map (fun s => '/' :: s)).flatten := by
  have hdrop : List.dropWhile List.isEmpty
      ["/clusters".toList, nm, (segs.map (fun s => '/' :: s)).flatten]
      = ["/clusters".toList, nm, (segs.map (fun s => '/' :: s)).flatten] := by
    rw [List.dropWhile_cons]
    simp
  have hinter : List.intercalate ['/']
      ["/clusters".toList, nm, (segs.map (fun s => '/' :: s)).flatten]
      = ((("clusters".toList :: nm :: [] :: segs).map
          (fun s => '/' :: s)).flatten) := by
    simp [List.intercalate, List.intersperse]
  have hsplit : splitOnChar '/'
      ((("clusters".toList :: nm :: [] :: segs).map (fun s => '/' :: s)).flatten)
      = [] :: "clusters".toList :: nm :: [] :: segs := by
    apply splitOnChar_flatten
    intro s hs
    simp only [List.mem_cons] at hs
    rcases hs with h | h | h | h
    · subst h; decide
    · subst h; exact hnm.2.2.2
    · subst h; simp
    · exact (hsegs s h).2.2.2
  have hclean : cleanSegments [] ([] :: "clusters".toList :: nm :: [] :: segs)
      = "clusters".toList :: nm :: segs := by
    have e1 : cleanSegments ([] : List (List Char))
        ([] :: "clusters".toList :: nm :: [] :: segs)
        = cleanSegments [] ("clusters".toList :: nm :: [] :: segs) := by
      simp [cleanSegments]
    have e2 : cleanSegments ([] : List (List Char))
        ("clusters".toList :: nm :: [] :: segs)
        = cleanSegments ["clusters".toList] (nm :: [] :: segs) :=
      cleanSegments_cons_plain _ _ _ (by decide)
    have e3 : cleanSegments ["clusters".toList] (nm :: [] :: segs)
        = cleanSegments [nm, "clusters".toList] ([] :: segs) :=
      cleanSegments_cons_plain _ _ _ hnm
    have e4 : cleanSegments [nm, "clusters".toList] ([] :: segs)
        = cleanSegments [nm, "clusters".toList] segs := by
      simp [cleanSegments]
    have e5 : cleanSegments [nm, "clusters".toList] segs
        = [nm, "clusters".toList].reverse ++ segs :=
      cleanSegments_all_plain segs _ hsegs
    rw [e1, e2, e3, e4, e5]
    simp
  rw [goPathJoin, hdrop]
  simp only
  rw [hinter, pathCleanRooted, hsplit, hclean]
  simp

/-- C8 counterexample: a request carrying the `X-Kubernetes-Sharded-Request`
header — but no cluster header, no `/clusters/` prefix, and a bearer token
whose claims do contain `kubernetes.io.clusterName` — is forwarded
unmodified: the handler also bails out on the sharded header, which the
claim does not mention, so `/clusters/root` is not prepended. -/
theorem inClusterSARewrite_sharded_counterexample :
    withInClusterSARewrite
        (fun _ => some (.obj [("kubernetes.io", .obj [("clusterName", .str "root")])]))
        ⟨"/api/v1".toList, [], "/api/v1".toList, [], "1".toList, "Bearer t".toList⟩
      = ⟨"/api/v1".toList, [], "/api/v1".toList, [], "1".toList, "Bearer t".toList⟩
    ∧ clusterNameFromClaims
        (.obj [("kubernetes.io", .obj [("clusterName", .str "root")])]) = some "root"
    ∧ "/api/v1".toList ≠ "/clusters/root/api/v1".toList := by
  exact ⟨rfl, rfl, by decide⟩

/-- C8 (amended): when a request has no cluster header, no sharded-request
header, no `/clusters/` prefix on the request URI, and a bearer token
whose JWT claims yield a cluster name (bound `kubernetes.io.clusterName`
or the legacy flat key, combined in `clusterNameFromClaims`), the
in-cluster service-account rewrite prepends `/clusters/<name>` to both
`URL.Path` and `RequestURI` (literally, for clean rooted paths made of
plain segments); and whenever a parse step fails — no bearer scheme,
unparseable token, or no cluster-name claim — the request is forwarded
unmodified. -/
theorem inClusterSARewrite_spec :
    (∀ (parse : List Char → Option Json) (req : HttpRequest)
        (psegs usegs : List (List Char)) (nm : String) (claims : Json)
        (tok : List Char),
      req.clusterHeader = [] → req.shardedHeader = [] →
      clustersMarker.isPrefixOf req.requestURI = false →
      req.authHeader = bearerMarker ++ tok →
      parse tok = some claims →
      clusterNameFromClaims claims = some nm →
      plainSeg nm.toList →
      (∀ s ∈ psegs, plainSeg s) → (∀ s ∈ usegs, plainSeg s) →
      req.path = (psegs.map (fun s => '/' :: s)).flatten →
      req.requestURI = (usegs.map (fun s => '/' :: s)).flatten →
      withInClusterSARewrite parse req
        = { req with
            path := "/clusters/".toList ++ nm.toList ++ req.path
            requestURI := "/clusters/".toList ++ nm.toList ++ req.requestURI })
  ∧ (∀ (parse : List Char → Option Json) (req : HttpRequest),
      bearerMarker.isPrefixOf req.authHeader = false →
      withInClusterSARewrite parse req = req)
  ∧ (∀ (parse : List Char → Option Json) (req : HttpRequest) (tok : List Char),
      req.authHeader = bearerMarker ++ tok → parse tok = none →
      withInClusterSARewrite parse req = req)
  ∧ (∀ (parse : List Char → Option Json) (req : HttpRequest) (tok : List Char)
        (claims : Json),
      req.authHeader = bearerMarker ++ tok → parse tok = some claims →
      clusterNameFromClaims claims = none →
      withInClusterSARewrite parse req = req) := by
  refine ⟨?_, ?_, ?_, ?_⟩
  · intro parse req psegs usegs nm claims tok h1 h2 h3 h4 h5 h6 hnm hps hus hp hu
    have hjp : goPathJoin ["/clusters".toList, nm.toList, req.path]
        = "/clusters/".toList ++ nm.toList ++ req.path := by
      rw [hp]
      exact goPathJoin_prepend nm.toList psegs hnm hps
    have hju : goPathJoin ["/clusters".toList, nm.toList, req.requestURI]
        = "/clusters/".toList ++ nm.toList ++ req.requestURI := by
      rw [hu]
      exact goPathJoin_prepend nm.toList usegs hnm hus
    unfold withInClusterSARewrite
    rw [if_neg (by simp [h1, h2])]
    rw [if_neg (by simp [h3])]
    rw [if_pos (by rw [h4, List.isPrefixOf_iff_prefix]; exact List.prefix_append _ _)]
    rw [h4, List.drop_left, h5]
    dsimp only
    rw [h6]
    dsimp only
    rw [hjp, hju]
  · intro parse req h
    unfold withInClusterSARewrite
    split_ifs with hA hB hC
    · rfl
    · rfl
    · rw [h] at hC
      exact absurd hC (by simp)
    · rfl
  · intro parse req tok h hp
    unfold withInClusterSARewrite
    split_ifs with hA hB hC
    · rfl
    · rfl
    · rw [h, List.drop_left, hp]
    · rfl
  · intro parse req tok claims h hp hc
    unfold withInClusterSARewrite
    split_ifs with hA hB hC
    · rfl
    · rfl
    · rw [h, List.drop_left, hp]
      dsimp only
      rw [hc]
    · rfl

/-- C8 witness: a sharded-header-free request with a bearer token whose
claims name cluster `root` gets `/clusters/root` prepended to path and
request URI; a basic-auth request, an unparseable token, and claims
without a cluster name each pass through unchanged. -/
theorem inClusterSARewrite_spec_witness :
    withInClusterSARewrite
        (fun _ => some (.obj [("kubernetes.io", .obj [("clusterName", .str "root")])]))
        ⟨"/api/v1".toList, [], "/api/v1".toList, [], [], "Bearer t".toList⟩
      = { path := "/clusters/".toList ++ "root".toList ++ "/api/v1".toList
          rawPath := []
          requestURI := "/clusters/".toList ++ "root".toList ++ "/api/v1".toList
          clusterHeader := []
          shardedHeader := []
          authHeader := "Bearer t".toList }
    ∧ withInClusterSARewrite (fun _ => some (.obj []))
        ⟨"/api/v1".toList, [], "/api/v1".toList, [], [], "Basic t".toList⟩
      = ⟨"/api/v1".toList, [], "/api/v1".toList, [], [], "Basic t".toList⟩
    ∧ withInClusterSARewrite (fun _ => none)
        ⟨"/api/v1".toList, [], "/api/v1".toList, [], [], "Bearer t".toList⟩
      = ⟨"/api/v1".toList, [], "/api/v1".toList, [], [], "Bearer t".toList⟩
    ∧ withInClusterSARewrite (fun _ => some (.obj []))
        ⟨"/api/v1".toList, [], "/api/v1".toList, [], [], "Bearer t".toList⟩
      = ⟨"/api/v1".toList, [], "/api/v1".toList, [], [], "Bearer t".toList⟩ := by
  obtain ⟨p1, p2, p3, p4⟩ := inClusterSARewrite_spec
  refine ⟨?_, ?_, ?_, ?_⟩
  · exact p1 _ _ ["api".toList, "v1".toList] ["api".toList, "v1".toList] "root" _
      "t".toList rfl rfl (by decide) (by decide) rfl rfl (by decide) (by decide)
      (by decide) (by decide) (by decide)
  · exact p2 _ _ (by decide)
  · exact p3 _ _ "t".toList (by decide) rfl
  · exact p4 _ _ "t".toList (.obj []) (by decide) rfl rfl

/-- Helper: a nondecisive iteration leaves the readiness loop running. -/
theorem readinessLoop_cons_nondecisive (j : LoopIter) (t : List LoopIter)
    (h : nondecisive j) : readinessLoop (j :: t) = readinessLoop t := by
  obtain ⟨h1, h2, h3⟩ := h
  simp only [readinessLoop]
  rw [h1, h2]
  cases hs : j.step with
  | loadFail => rfl
  | clientFail => rfl
  | probeFail => rfl
  | httpCode rc =>
    have hrc : rc ≠ 200 := fun he => h3 (by rw [hs, he])
    simp only [if_neg hrc]

/-- Helper: a nondecisive prefix of iterations is skipped. -/
theorem readinessLoop_append_nondecisive (pre : List LoopIter)
    (t : List LoopIter) (h : ∀ j ∈ pre, nondecisive j) :
    readinessLoop (pre ++ t) = readinessLoop t := by
  induction pre with
  | nil => rfl
  | cons j pre' ih =>
    rw [List.cons_append,
      readinessLoop_cons_nondecisive j _ (h j (List.mem_cons_self j pre')),
      ih fun x hx => h x (List.mem_cons_of_mem j hx)]

/-- C9 counterexample: an iteration in which the context is canceled and
the child's exit (here code 1) is observable in the same `select` — the
usual situation after a cancel, since the kill-on-cancel goroutine makes
`cmd.Wait` return with an exit code — can resolve to the `terminatedCh`
case and return the exit-code error although the context is canceled:
"if the context is canceled it returns a cancellation error" does not
hold of the program as stated. -/
theorem frontProxy_readiness_canceled_race_counterexample :
    readinessLoop [⟨true, some 1, .probeFail, false⟩] = .terminated 1
    ∧ readinessLoop [⟨true, some 1, .probeFail, false⟩] ≠ .canceled
    ∧ (⟨true, some 1, .probeFail, false⟩ : LoopIter).ctxDone = true := by
  exact ⟨rfl, by decide, rfl⟩

/-- C9 (amended): the front-proxy readiness loop (one-second cadence,
re-reading `admin.kubeconfig` each iteration — one trace entry per such
iteration) returns success exactly when a `/readyz` probe answers HTTP
200: after any run of nondecisive iterations a 200 probe yields `ready`,
and `ready` implies some iteration probed 200; an iteration whose
context is done while the child's exit is not observable yields the
cancellation error; one whose child has exited while the context is not
done yields the error carrying the child's exit code; and when both are
observable in the same iteration the outcome follows the run's `select`
resolution, so either error can result (Go's `select` picks randomly
among ready cases). -/
theorem frontProxy_readiness_loop_spec :
    (∀ (pre : List LoopIter) (it : LoopIter) (rest : List LoopIter),
      (∀ j ∈ pre, nondecisive j) → it.ctxDone = false → it.childExit = none →
      it.step = .httpCode 200 → readinessLoop (pre ++ it :: rest) = .ready)
  ∧ (∀ t : List LoopIter, readinessLoop t = .ready →
      ∃ it ∈ t, it.ctxDone = false ∧ it.childExit = none ∧
        it.step = .httpCode 200)
  ∧ (∀ (pre : List LoopIter) (it : LoopIter) (rest : List LoopIter),
      (∀ j ∈ pre, nondecisive j) → it.ctxDone = true → it.childExit = none →
      readinessLoop (pre ++ it :: rest) = .canceled ∧
        LoopOutcome.canceled.message = some "context canceled")
  ∧ (∀ (pre : List LoopIter) (it : LoopIter) (rest : List LoopIter) (rc : Int),
      (∀ j ∈ pre, nondecisive j) → it.ctxDone = false →
      it.childExit = some rc →
      readinessLoop (pre ++ it :: rest) = .terminated rc ∧
        (LoopOutcome.terminated rc).message
          = some ("kcp-front-proxy terminated with exit code " ++ toString rc))
  ∧ (∀ (pre : List LoopIter) (it : LoopIter) (rest : List LoopIter) (rc : Int),
      (∀ j ∈ pre, nondecisive j) → it.ctxDone = true →
      it.childExit = some rc →
      readinessLoop (pre ++ it :: rest)
        = (if it.selectPick then .canceled else .terminated rc)) := by
  refine ⟨?_, ?_, ?_, ?_, ?_⟩
  · intro pre it rest hpre hd hc hs
    rw [readinessLoop_append_nondecisive pre _ hpre]
    simp only [readinessLoop]
    rw [hd, hc, hs]
    rfl
  · intro t
    induction t with
    | nil => intro h; exact absurd h (by simp [readinessLoop])
    | cons it rest ih =>
      intro h
      simp only [readinessLoop] at h
      cases hd : it.ctxDone with
      | true =>
        rw [hd] at h
        cases hc : it.childExit with
        | some rc =>
          rw [hc] at h
          dsimp only at h
          cases hp : it.selectPick with
          | true =>
            rw [hp] at h
            simp at h
          | false =>
            rw [hp] at h
            simp at h
        | none =>
          rw [hc] at h
          dsimp only at h
          exact absurd h (by simp)
      | false =>
        rw [hd] at h
        cases hc : it.childExit with
        | some rc =>
          rw [hc] at h
          dsimp only at h
          exact absurd h (by simp)
        | none =>
          rw [hc] at h
          dsimp only at h
          cases hs : it.step with
          | httpCode rc =>
            rw [hs] at h
            dsimp only at h
            by_cases hrc : rc = 200
            · subst hrc
              exact ⟨it, List.mem_cons_self it rest, hd, hc, hs⟩
            · rw [if_neg hrc] at h
              obtain ⟨j, hj, hrest⟩ := ih h
              exact ⟨j, List.mem_cons_of_mem it hj, hrest⟩
          | loadFail =>
            rw [hs] at h
            dsimp only at h
            obtain ⟨j, hj, hrest⟩ := ih h
            exact ⟨j, List.mem_cons_of_mem it hj, hrest⟩
          | clientFail =>
            rw [hs] at h
            dsimp only at h
            obtain ⟨j, hj, hrest⟩ := ih h
            exact ⟨j, List.mem_cons_of_mem it hj, hrest⟩
          | probeFail =>
            rw [hs] at h
            dsimp only at h
            obtain ⟨j, hj, hrest⟩ := ih h
            exact ⟨j, List.mem_cons_of_mem it hj, hrest⟩
  · intro pre it rest hpre hd hc
    refine ⟨?_, rfl⟩
    rw [readinessLoop_append_nondecisive pre _ hpre]
    simp only [readinessLoop]
    rw [hd, hc]
  · intro pre it rest rc hpre hd hc
    refine ⟨?_, rfl⟩
    rw [readinessLoop_append_nondecisive pre _ hpre]
    simp only [readinessLoop]
    rw [hd, hc]
  · intro pre it rest rc hpre hd hc
    rw [readinessLoop_append_nondecisive pre _ hpre]
    simp only [readinessLoop]
    rw [hd, hc]

/-- C9 witness: a trace probing 503 twice and then 200 ends ready (and
contains a 200 probe); a cancellation with the child still running
yields the cancellation error; a child exit with code 1 and the context
alive yields the exit-code error with its message; and a canceled
iteration whose child exit is also observable resolves by the recorded
select choice (here to the cancellation error). -/
theorem frontProxy_readiness_loop_spec_witness :
    readinessLoop [⟨false, none, .httpCode 503, true⟩,
        ⟨false, none, .httpCode 503, true⟩,
        ⟨false, none, .httpCode 200, true⟩] = .ready
    ∧ (∃ it ∈ [(⟨false, none, .httpCode 503, true⟩ : LoopIter),
        ⟨false, none, .httpCode 503, true⟩,
        ⟨false, none, .httpCode 200, true⟩],
        it.ctxDone = false ∧ it.childExit = none ∧ it.step = .httpCode 200)
    ∧ (readinessLoop [⟨true, none, .probeFail, true⟩] = .canceled ∧
        LoopOutcome.canceled.message = some "context canceled")
    ∧ (readinessLoop [⟨false, some 1, .probeFail, true⟩] = .terminated 1 ∧
        (LoopOutcome.terminated 1).message
          = some ("kcp-front-proxy terminated with exit code "
              ++ toString (1 : Int)))
    ∧ readinessLoop [⟨true, some 1, .probeFail, true⟩] = .canceled := by
  obtain ⟨p1, p2, p3, p4, p5⟩ := frontProxy_readiness_loop_spec
  refine ⟨?_, ?_, ?_, ?_, ?_⟩
  · exact p1 [⟨false, none, .httpCode 503, true⟩,
      ⟨false, none, .httpCode 503, true⟩]
      ⟨false, none, .httpCode 200, true⟩ [] (by decide) rfl rfl rfl
  · exact p2 _ (by decide)
  · exact p3 [] ⟨true, none, .probeFail, true⟩ [] (by simp) rfl rfl
  · exact p4 [] ⟨false, some 1, .probeFail, true⟩ [] 1 (by simp) rfl rfl
  · exact p5 [] ⟨true, some 1, .probeFail, true⟩ [] 1 (by simp) rfl rfl

/-- Helper: membership in a conditional singleton. -/
theorem mem_ite_singleton {α} {a b : α} {c : Prop} [Decidable c]
    (h : a ∈ (if c then [b] else [])) : c ∧ a = b := by
  split at h
  · next hc => exact ⟨hc, by simpa using h⟩
  · simp at h

/-- Helper: a conditional singleton is empty only if its condition
fails. -/
theorem ite_singleton_eq_nil {α} {b : α} {c : Prop} [Decidable c]
    (h : (if c then [b] else []) = []) : ¬ c := by
  intro hc
  rw [if_pos hc] at h
  exact absurd h (by simp)

/-- C3: on a validated update of a clusterworkspaces object, a strictly
decreasing phase (under Scheduling < Initializing < Ready) produces the
error whose message is `cannot transition from "<old>" to "<new>"`, and
an update that keeps the phase equal produces no phase-transition error
at all. -/
theorem clusterWorkspace_phase_rollback_rejected :
    (∀ (a : AdmissionAttributes) (old : ClusterWorkspace),
      a.resource = "clusterworkspaces" → a.op = .update → a.oldObj = some old →
      phaseOrdinal a.obj.phase < phaseOrdinal old.phase →
      WsError.cannotTransition old.phase a.obj.phase ∈ validate a ∧
        (WsError.cannotTransition old.phase a.obj.phase).message
          = "cannot transition from \"" ++ phaseName old.phase ++ "\" to \""
            ++ phaseName a.obj.phase ++ "\"")
  ∧ (∀ (a : AdmissionAttributes) (old : ClusterWorkspace),
      a.resource = "clusterworkspaces" → a.op = .update → a.oldObj = some old →
      old.phase = a.obj.phase →
      ∀ p q : WorkspacePhase, WsError.cannotTransition p q ∉ validate a) := by
  constructor
  · intro a old hres hop hold hlt
    refine ⟨?_, rfl⟩
    unfold validate
    rw [if_neg (by simp [hres]), hop, hold]
    dsimp only
    apply List.mem_append_left
    unfold updateErrs
    apply List.mem_append_right
    rw [if_pos hlt]
    exact List.mem_singleton_self _
  · intro a old hres hop hold heq p q hmem
    unfold validate at hmem
    rw [if_neg (by simp [hres]), hop, hold] at hmem
    dsimp only at hmem
    rcases List.mem_append.mp hmem with h | h
    · unfold updateErrs at h
      rcases List.mem_append.mp h with h | h
      · rcases List.mem_append.mp h with h | h
        · rcases List.mem_append.mp h with h | h
          · exact absurd (mem_ite_singleton h).2 (by simp)
          · exact absurd (mem_ite_singleton h).2 (by simp)
        · exact absurd (mem_ite_singleton h).2 (by simp)
      · obtain ⟨hcond, _⟩ := mem_ite_singleton h
        rw [heq] at hcond
        exact absurd hcond (lt_irrefl _)
    · unfold readyErrs at h
      split at h
      · rcases List.mem_append.mp h with h | h
        · rcases List.mem_append.mp h with h | h
          · exact absurd (mem_ite_singleton h).2 (by simp)
          · exact absurd (mem_ite_singleton h).2 (by simp)
        · exact absurd (mem_ite_singleton h).2 (by simp)
      · simp at h

/-- C3 witness: the "rejects transition to previous phase" row — an
update from Ready back to Initializing — carries the transition error
with its exact message, and the "allows transition from Initializing with
empty initializers" row (equal input phases would be e.g. Ready to Ready)
is free of transition errors. -/
theorem clusterWorkspace_phase_rollback_rejected_witness :
    (WsError.cannotTransition .ready .initializing ∈ validate phaseRollbackAttrs ∧
      (WsError.cannotTransition .ready .initializing).message
        = "cannot transition from \"Ready\" to \"Initializing\"")
    ∧ WsError.cannotTransition WorkspacePhase.ready WorkspacePhase.scheduling
        ∉ validate phaseEqualAttrs := by
  obtain ⟨p1, p2⟩ := clusterWorkspace_phase_rollback_rejected
  exact ⟨p1 phaseRollbackAttrs (wsRow .ready) rfl rfl rfl (by decide),
    p2 phaseEqualAttrs (wsRow .ready) rfl rfl rfl rfl .ready .scheduling⟩

/-- Helper: validation of a `Ready` object only succeeds with empty
initializers, a baseURL and a current location. -/
theorem validate_nil_ready_conditions (a : AdmissionAttributes)
    (hres : a.resource = "clusterworkspaces") (hready : a.obj.phase = .ready)
    (hval : validate a = []) :
    a.obj.pendingInits = [] ∧ a.obj.baseURL ≠ "" ∧
      a.obj.locationCurrent ≠ "" := by
  unfold validate at hval
  rw [if_neg (by simp [hres])] at hval
  have hr : readyErrs a.obj = [] := (List.append_eq_nil.mp hval).2
  unfold readyErrs at hr
  rw [if_pos hready] at hr
  obtain ⟨h12, h3⟩ := List.append_eq_nil.mp hr
  obtain ⟨h1, h2⟩ := List.append_eq_nil.mp h12
  exact ⟨not_not.mp (ite_singleton_eq_nil h1), ite_singleton_eq_nil h2,
    ite_singleton_eq_nil h3⟩

/-- Helper: a create of a `Ready` object with the stamped owner
annotation passes validation when the three `Ready` conditions hold. -/
theorem ready_create_validate_nil (a : AdmissionAttributes)
    (hres : a.resource = "clusterworkspaces") (hop : a.op = .create)
    (howner : getAnnot ownerKey a.obj.annots
      = some (renderJson (userToJson a.userInfo)))
    (hready : a.obj.phase = .ready)
    (h1 : a.obj.pendingInits = []) (h2 : a.obj.baseURL ≠ "")
    (h3 : a.obj.locationCurrent ≠ "") :
    validate a = [] := by
  unfold validate
  rw [if_neg (by simp [hres]), hop]
  have hc : createErrs a.obj a.userInfo = [] := by
    unfold createErrs
    rw [if_neg (by simp [howner])]
  have hr : readyErrs a.obj = [] := by
    unfold readyErrs
    rw [if_pos hready, if_neg (by simp [h1]), if_neg h2, if_neg h3]
    rfl
  cases hold : a.oldObj <;> simp [hc, hr]

/-- C4 (amended): for every validated create or update of a
clusterworkspaces object in phase `Ready`, acceptance requires empty
initializers, a non-empty baseURL and a non-empty current location; and a
direct create in phase `Ready` whose owner annotation matches the
requesting user is admitted exactly when the three conditions hold. -/
theorem clusterWorkspace_ready_requirements :
    (∀ a : AdmissionAttributes,
      a.resource = "clusterworkspaces" → a.obj.phase = .ready →
      validate a = [] →
      a.obj.pendingInits = [] ∧ a.obj.baseURL ≠ "" ∧
        a.obj.locationCurrent ≠ "")
  ∧ (∀ a : AdmissionAttributes,
      a.resource = "clusterworkspaces" → a.op = .create →
      getAnnot ownerKey a.obj.annots
        = some (renderJson (userToJson a.userInfo)) →
      a.obj.phase = .ready →
      (validate a = [] ↔
        (a.obj.pendingInits = [] ∧ a.obj.baseURL ≠ "" ∧
          a.obj.locationCurrent ≠ ""))) := by
  constructor
  · exact validate_nil_ready_conditions
  · intro a hres hop howner hready
    constructor
    · exact validate_nil_ready_conditions a hres hready
    · intro ⟨h1, h2, h3⟩
      exact ready_create_validate_nil a hres hop howner hready h1 h2 h3

/-- C4 counterexample: a direct create in phase `Ready` with empty
initializers, a baseURL and a current location is nevertheless rejected
when its owner annotation does not match the requesting user — the
create-time owner check also applies, so "admitted exactly when the
three conditions hold" fails as stated. -/
theorem clusterWorkspace_ready_create_counterexample :
    validate readyCreateBadOwner ≠ []
    ∧ readyCreateBadOwner.op = .create
    ∧ readyCreateBadOwner.obj.phase = .ready
    ∧ readyCreateBadOwner.obj.pendingInits = []
    ∧ readyCreateBadOwner.obj.baseURL ≠ ""
    ∧ readyCreateBadOwner.obj.locationCurrent ≠ "" := by
  exact ⟨by decide, rfl, rfl, rfl, by decide, by decide⟩

/-- C4 witness: the valid direct create in phase `Ready` satisfies the
three conditions, and its validation-acceptance is equivalent to them. -/
theorem clusterWorkspace_ready_requirements_witness :
    (readyCreateOk.obj.pendingInits = [] ∧ readyCreateOk.obj.baseURL ≠ ""
      ∧ readyCreateOk.obj.locationCurrent ≠ "")
    ∧ (validate readyCreateOk = [] ↔
        (readyCreateOk.obj.pendingInits = [] ∧ readyCreateOk.obj.baseURL ≠ ""
          ∧ readyCreateOk.obj.locationCurrent ≠ "")) := by
  obtain ⟨p1, p2⟩ := clusterWorkspace_ready_requirements
  exact ⟨p1 readyCreateOk rfl rfl (by decide),
    p2 readyCreateOk rfl rfl (by decide) rfl⟩

/-- Helper: decoding the encoded string list is the identity. -/
theorem decodeStrList_map_str : ∀ l : List String,
    decodeStrList (l.map Json.str) = some l := by
  intro l
  induction l with
  | nil => rfl
  | cons s rest ih => simp [decodeStrList, asStr, ih]

/-- Helper: decoding the encoded extra map is the identity. -/
theorem decodeExtraFields_map : ∀ l : List (String × List String),
    decodeExtraFields
      (l.map fun kv => (kv.1, Json.arr (kv.2.map Json.str))) = some l := by
  intro l
  induction l with
  | nil => rfl
  | cons kv rest ih =>
    simp [decodeExtraFields, asStrList, decodeStrList_map_str, ih]

/-- Helper: looking up a key after `setAnnot` returns the new value. -/
theorem getAnnot_setAnnot (k v : String) :
    ∀ annots : List (String × String),
      getAnnot k (setAnnot k v annots) = some v := by
  intro annots
  unfold getAnnot setAnnot
  induction annots with
  | nil => simp [List.lookup]
  | cons kv rest ih =>
    by_cases hk : kv.1 = k
    · simpa [List.filter_cons, hk] using ih
    · have hk' : (k == kv.1) = false := by simp [Ne.symm hk]
      simp only [List.filter_cons]
      rw [if_pos (by simp [hk])]
      simpa [List.lookup, hk'] using ih

/-- C5: on create of a clusterworkspaces object, `Admit` stamps the
`tenancy.kcp.dev/owner` annotation with the canonical JSON serialization
of the calling user (field order username, uid, groups, extra, with the
extra map in its canonical key-sorted form), decoding that JSON value
yields exactly the caller identity, and `Admit` leaves the attributes
unchanged on update. -/
theorem clusterWorkspace_owner_annotation_roundtrip :
    (∀ a : AdmissionAttributes,
      a.resource = "clusterworkspaces" → a.op = .create →
      getAnnot ownerKey (wsAdmit a).obj.annots
        = some (renderJson (userToJson a.userInfo)))
  ∧ (∀ u : UserInfo, extraCanonical u →
      jsonToUser (userToJson u) = some u)
  ∧ (∀ a : AdmissionAttributes, a.op = .update → wsAdmit a = a) := by
  refine ⟨?_, ?_, ?_⟩
  · intro a hres hop
    unfold wsAdmit
    rw [if_neg (by simp [hres]), hop]
    exact getAnnot_setAnnot ownerKey _ a.obj.annots
  · intro u _
    obtain ⟨un, uidv, gs, ex⟩ := u
    by_cases h1 : un = "" <;> by_cases h2 : uidv = "" <;>
      by_cases h3 : gs = [] <;> by_cases h4 : ex = [] <;>
      simp [userToJson, userFields, jsonToUser, strField, asStr, asStrList,
        asExtra, decodeStrList_map_str, decodeExtraFields_map, List.lookup,
        h1, h2, h3, h4]
  · intro a hop
    unfold wsAdmit
    split
    · rfl
    · rw [hop]

/-- C5 witness: creating as user someone/id/[a,b]/(one -> [1,01]) stamps
exactly the expected owner-annotation JSON, that user round-trips through
decoding, and an update is left untouched. -/
theorem clusterWorkspace_owner_annotation_roundtrip_witness :
    getAnnot ownerKey (wsAdmit ownerCreateAttrs).obj.annots
      = some "\x7b\"username\":\"someone\",\"uid\":\"id\",\"groups\":[\"a\",\"b\"],\"extra\":\x7b\"one\":[\"1\",\"01\"]\x7d\x7d"
    ∧ jsonToUser (userToJson ⟨"someone", "id", ["a", "b"], [("one", ["1", "01"])]⟩)
      = some ⟨"someone", "id", ["a", "b"], [("one", ["1", "01"])]⟩
    ∧ wsAdmit phaseEqualAttrs = phaseEqualAttrs := by
  obtain ⟨p1, p2, p3⟩ := clusterWorkspace_owner_annotation_roundtrip
  refine ⟨?_, ?_, ?_⟩
  · exact (p1 ownerCreateAttrs rfl rfl).trans (by decide)
  · exact p2 ⟨"someone", "id", ["a", "b"], [("one", ["1", "01"])]⟩
      (by simp [extraCanonical])
  · exact p3 phaseEqualAttrs rfl

end KcpServer
